import Mathlib

/-!
Verification of the govend dependency-vendoring tool.

This file gives a shallow embedding, in Lean 4, of the manifest
reconciliation and revision-resolution engine of govend: the dependency
set algebra (`subDeps`), same-repository conflict detection
(`checkForConflicts`), the pattern matcher used by the selective update
(`matchPattern`, `filter`), manifest serialization (`Manifest.writeTo`),
the import-annotation strip applied to copied source files
(`stripImportComment`), and the control flow of the `update` operation
(`update`, `LoadVCSAndUpdate`, `ReadManifest`, `readCurManifest`).

External effects (the VCS backends, `go list`, the JSON decoder and the
file copier) are modelled as an explicit environment (`Env`) of oracles;
the manifest file on disk is modelled as an `Option String` (absent or
raw content).  Machine behaviour that the embedded functions depend on
(Go's RE2 character classes, `regexp.QuoteMeta` followed by the `...`
replacement, `encoding/json` field order, omitempty and string escaping)
is reproduced directly from the Go sources.
-/

namespace Govend

/-- A specific revision of one importable package (pkgs.Dependency).
`ImportPath`, `Comment` and `Rev` are the persisted JSON fields;
`Workspace`, `Root` and `Dir` are resolution-only fields tagged
with a JSON dash in the source and never serialized. -/
structure Dependency where
  ImportPath : String
  Comment : String
  Rev : String
  Workspace : String
  Root : String
  Dir : String
deriving Repr, DecidableEq

/-- Model of Go `strings.HasPrefix s pre`. -/
def strStartsWith (s pre : String) : Bool :=
  pre.data.isPrefixOf s.data

/-- Model of Go `strings.Contains hay needle` (used only to inspect
error messages in theorems). -/
def strContains : List Char → List Char → Bool
  | _, [] => true
  | [], _ :: _ => false
  | x :: xs, needle =>
    needle.isPrefixOf (x :: xs) || strContains xs needle

/-- subDeps from save.go: returns `a - b`, using ImportPath for
equality; the loop appends each element of `a` whose import path equals
no import path in `b`, in order. -/
def subDeps (a b : List Dependency) : List Dependency :=
  a.filter fun da => !(b.any fun db => da.ImportPath == db.ImportPath)

/-- One ordered comparison of checkForConflicts' inner loop body
(save.go).  The Go `switch` tries the parent/child prefix test first and
the repo-root prefix test only when the first case fails; both branches
return the same error built from the two revisions only. -/
def conflictErr (da db : Dependency) : Option String :=
  if strStartsWith db.ImportPath (da.ImportPath ++ "/") then
    if da.Rev ≠ db.Rev then
      some ("conflicting revisions " ++ da.Rev ++ " and " ++ db.Rev)
    else none
  else if strStartsWith da.ImportPath (db.Root ++ "/") then
    if da.Rev ≠ db.Rev then
      some ("conflicting revisions " ++ da.Rev ++ " and " ++ db.Rev)
    else none
  else none

/-- checkForConflicts from save.go: two nested loops over the same
dependency list; the first mismatching pair (in loop order) produces the
error. -/
def checkForConflicts (deps : List Dependency) : Option String :=
  deps.findSome? fun da => deps.findSome? fun db => conflictErr da db

/-- The specification's set-difference predicate: absence of the
dependency's import path from `b`. -/
def specAbsent (d : Dependency) (b : List Dependency) : Prop :=
  ∀ db ∈ b, d.ImportPath ≠ db.ImportPath

instance (d : Dependency) (b : List Dependency) : Decidable (specAbsent d b) := by
  unfold specAbsent; infer_instance

theorem subDeps_eq_filter (a b : List Dependency) :
    subDeps a b = a.filter fun d => decide (specAbsent d b) := by
  unfold subDeps
  apply List.filter_congr
  intro d _
  by_cases hP : specAbsent d b
  · rw [decide_eq_true hP, Bool.not_eq_true', List.any_eq_false]
    intro db hdb
    simpa using hP db hdb
  · rw [decide_eq_false hP, Bool.not_eq_false', List.any_eq_true]
    unfold specAbsent at hP
    push_neg at hP
    rcases hP with ⟨db, hdb, heq⟩
    exact ⟨db, hdb, by simpa using heq⟩

/-- C1: subDeps returns exactly the elements of `a` whose ImportPath is
equal to no ImportPath of any element of `b`, preserving their relative
order in `a` (it is the order-preserving filter of `a` by that
predicate, hence a sublist of `a`, and membership is characterized by
absence from `b`). -/
theorem C1_subDeps_set_difference (a b : List Dependency) :
    subDeps a b = (a.filter fun d => decide (specAbsent d b))
    ∧ (subDeps a b).Sublist a
    ∧ ∀ d, d ∈ subDeps a b ↔ d ∈ a ∧ ∀ db ∈ b, d.ImportPath ≠ db.ImportPath := by
  refine ⟨subDeps_eq_filter a b, ?_, ?_⟩
  · rw [subDeps_eq_filter]; exact List.filter_sublist a
  · intro d
    rw [subDeps_eq_filter, List.mem_filter]
    simp [specAbsent]

theorem strStartsWith_iff (s pre : String) : strStartsWith s pre = true ↔ pre.data <+: s.data :=
  List.isPrefixOf_iff_prefix

theorem findSome?_isSome_iff {α β : Type} (f : α → Option β) (l : List α) :
    (l.findSome? f).isSome ↔ ∃ a ∈ l, (f a).isSome := by
  induction l with
  | nil => simp [List.findSome?]
  | cons x xs ih =>
    rw [List.findSome?_cons]
    cases h : f x with
    | some b => simp [h]
    | none => simp [h, ih]

/-- Import paths in a parent/child (path-prefix) relationship, in
either direction: one is the other followed by a slash and a suffix. -/
def parentChild (da db : Dependency) : Prop :=
  (da.ImportPath ++ "/").data <+: db.ImportPath.data
  ∨ (db.ImportPath ++ "/").data <+: da.ImportPath.data

instance (da db : Dependency) : Decidable (parentChild da db) := by
  unfold parentChild; infer_instance

theorem conflictErr_isSome_iff (da db : Dependency) :
    (conflictErr da db).isSome ↔
      (strStartsWith db.ImportPath (da.ImportPath ++ "/") = true
        ∨ strStartsWith da.ImportPath (db.Root ++ "/") = true) ∧ da.Rev ≠ db.Rev := by
  unfold conflictErr
  by_cases hc1 : strStartsWith db.ImportPath (da.ImportPath ++ "/") = true
  · rw [if_pos hc1]
    by_cases hr : da.Rev = db.Rev <;> simp [hr, hc1]
  · rw [if_neg hc1]
    by_cases hc2 : strStartsWith da.ImportPath (db.Root ++ "/") = true
    · rw [if_pos hc2]
      by_cases hr : da.Rev = db.Rev <;> simp [hr, hc1, hc2]
    · rw [if_neg hc2]
      simp [hc1, hc2]

theorem conflictErr_eq_some (da db : Dependency) (msg : String)
    (h : conflictErr da db = some msg) :
    msg = "conflicting revisions " ++ da.Rev ++ " and " ++ db.Rev := by
  unfold conflictErr at h
  split at h
  · split at h
    · exact (Option.some.inj h).symm
    · exact absurd h (by simp)
  · split at h
    · split at h
      · exact (Option.some.inj h).symm
      · exact absurd h (by simp)
    · exact absurd h (by simp)

/-- C2 (amended): under well-formedness of the dependency list —
pairwise-distinct import paths, each Root equal to or a path-prefix of
its own ImportPath, and agreement of Roots whenever one import path
lies under another dependency's Root (no distinct nested repository
roots) — checkForConflicts reports an error exactly when some pair of
dependencies in a parent/child import-path relationship or with equal
Roots has differing Rev values; and any reported message is built from
the two conflicting revisions. -/
theorem C2_checkForConflicts_iff (deps : List Dependency)
    (h1 : deps.Pairwise fun a b => a.ImportPath ≠ b.ImportPath)
    (h2 : ∀ d ∈ deps, d.Root = d.ImportPath ∨ (d.Root ++ "/").data <+: d.ImportPath.data)
    (h3 : ∀ da ∈ deps, ∀ db ∈ deps,
      (db.Root ++ "/").data <+: da.ImportPath.data → da.Root = db.Root) :
    ((checkForConflicts deps).isSome ↔
      ∃ da ∈ deps, ∃ db ∈ deps,
        (parentChild da db ∨ da.Root = db.Root) ∧ da.Rev ≠ db.Rev)
    ∧ ∀ msg, checkForConflicts deps = some msg →
        ∃ da ∈ deps, ∃ db ∈ deps,
          da.Rev ≠ db.Rev
          ∧ msg = "conflicting revisions " ++ da.Rev ++ " and " ++ db.Rev := by
  constructor
  · constructor
    · intro hsome
      rw [checkForConflicts, findSome?_isSome_iff] at hsome
      rcases hsome with ⟨da, hda, hinner⟩
      rw [findSome?_isSome_iff] at hinner
      rcases hinner with ⟨db, hdb, hce⟩
      rcases (conflictErr_isSome_iff da db).mp hce with ⟨hcond, hrev⟩
      refine ⟨da, hda, db, hdb, ?_, hrev⟩
      rcases hcond with hc1 | hc2
      · exact Or.inl (Or.inl ((strStartsWith_iff _ _).mp hc1))
      · exact Or.inr (h3 da hda db hdb ((strStartsWith_iff _ _).mp hc2))
    · intro hex
      rcases hex with ⟨da, hda, db, hdb, hrel, hrev⟩
      rw [checkForConflicts, findSome?_isSome_iff]
      rcases hrel with hpc | hroot
      · rcases hpc with hparent | hchild
        · refine ⟨da, hda, ?_⟩
          rw [findSome?_isSome_iff]
          refine ⟨db, hdb, (conflictErr_isSome_iff da db).mpr
            ⟨Or.inl ((strStartsWith_iff _ _).mpr hparent), hrev⟩⟩
        · refine ⟨db, hdb, ?_⟩
          rw [findSome?_isSome_iff]
          refine ⟨da, hda, (conflictErr_isSome_iff db da).mpr
            ⟨Or.inl ((strStartsWith_iff _ _).mpr hchild), Ne.symm hrev⟩⟩
      · have hne : da ≠ db := fun h => hrev (by rw [h])
        have hIP : da.ImportPath ≠ db.ImportPath :=
          (h1.forall (fun a b h => h.symm)) hda hdb hne
        rcases h2 da hda with hdaeq | hdaext
        · rcases h2 db hdb with hdbeq | hdbext
          · exact absurd (hdaeq ▸ hroot ▸ hdbeq ▸ rfl) hIP
          · refine ⟨db, hdb, ?_⟩
            rw [findSome?_isSome_iff]
            refine ⟨da, hda, (conflictErr_isSome_iff db da).mpr
              ⟨Or.inr ((strStartsWith_iff _ _).mpr (hroot ▸ hdbext)), Ne.symm hrev⟩⟩
        · refine ⟨da, hda, ?_⟩
          rw [findSome?_isSome_iff]
          refine ⟨db, hdb, (conflictErr_isSome_iff da db).mpr
            ⟨Or.inr ((strStartsWith_iff _ _).mpr (hroot ▸ hdaext)), hrev⟩⟩
  · intro msg hmsg
    rw [checkForConflicts] at hmsg
    rcases List.exists_of_findSome?_eq_some hmsg with ⟨da, hda, hinner⟩
    rcases List.exists_of_findSome?_eq_some hinner with ⟨db, hdb, hce⟩
    have hrev : da.Rev ≠ db.Rev := by
      have := (conflictErr_isSome_iff da db).mp (by rw [hce]; rfl)
      exact this.2
    exact ⟨da, hda, db, hdb, hrev, conflictErr_eq_some da db msg hce⟩

/-- C2 counterexample to the claim as stated: with nested repository
roots (d1 under root X/Y, d2 under root X), the two import paths are
not parent/child and the detected roots differ, yet checkForConflicts
returns an error; moreover the error message names the two revisions
but neither import path. -/
theorem C2_counterexample :
    checkForConflicts
        [⟨"X/Y/Z", "", "r1", "", "X/Y", ""⟩, ⟨"X/W", "", "r2", "", "X", ""⟩]
      = some "conflicting revisions r1 and r2"
    ∧ ¬ parentChild ⟨"X/Y/Z", "", "r1", "", "X/Y", ""⟩ ⟨"X/W", "", "r2", "", "X", ""⟩
    ∧ Dependency.Root ⟨"X/Y/Z", "", "r1", "", "X/Y", ""⟩
        ≠ Dependency.Root ⟨"X/W", "", "r2", "", "X", ""⟩
    ∧ strContains "conflicting revisions r1 and r2".data "X/Y/Z".data = false
    ∧ strContains "conflicting revisions r1 and r2".data "X/W".data = false := by
  decide

/-- C2 witness: the well-formedness hypotheses hold at the spec's own
example (two sibling packages of repository D), so the equivalence
applies there. -/
theorem C2_witness :
    (checkForConflicts
        [⟨"D/A", "", "r1", "", "D", ""⟩, ⟨"D/B", "", "r2", "", "D", ""⟩]).isSome ↔
      ∃ da ∈ [(⟨"D/A", "", "r1", "", "D", ""⟩ : Dependency), ⟨"D/B", "", "r2", "", "D", ""⟩],
        ∃ db ∈ [(⟨"D/A", "", "r1", "", "D", ""⟩ : Dependency), ⟨"D/B", "", "r2", "", "D", ""⟩],
          (parentChild da db ∨ da.Root = db.Root) ∧ da.Rev ≠ db.Rev :=
  (C2_checkForConflicts_iff
    [⟨"D/A", "", "r1", "", "D", ""⟩, ⟨"D/B", "", "r2", "", "D", ""⟩]
    (by decide) (by decide) (by decide)).1

/-- Tokens of the compiled selection pattern: after `regexp.QuoteMeta`
every pattern character is a literal, except that each leftmost
non-overlapping occurrence of `...` was replaced by the regexp `.*`. -/
inductive Tok where
  | lit (c : Char)
  | anyStar
deriving Repr, DecidableEq

/-- compilePat mirrors `regexp.QuoteMeta(pat)` followed by
`strings.Replace(re, quoted-dots, ".*", -1)`: scanning left to right,
each non-overlapping `...` becomes one `.*` token and every other
character stays literal (QuoteMeta makes all metacharacters literal,
and an escaped dot in the quoted text arises only from a dot of the
pattern). -/
def compilePat : List Char → List Tok
  | [] => []
  | [c] => [Tok.lit c]
  | [c1, c2] => [Tok.lit c1, Tok.lit c2]
  | c1 :: c2 :: c3 :: rest =>
    if c1 = '.' ∧ c2 = '.' ∧ c3 = '.' then Tok.anyStar :: compilePat rest
    else Tok.lit c1 :: compilePat (c2 :: c3 :: rest)

/-- starTails xs enumerates the suffixes of `xs` that the regexp `.*`
can leave behind: `.*` consumes any run of characters other than a
newline (RE2 `.` does not match a newline). -/
def starTails : List Char → List (List Char)
  | [] => [[]]
  | x :: xs => (x :: xs) :: (if x = '\n' then [] else starTails xs)

/-- tokensMatchFront ts xs: the token sequence matches some prefix of
`xs` (the regexp `^ts` is anchored on the left only, as in the source,
so MatchString succeeds on any prefix match). -/
def tokensMatchFront : List Tok → List Char → Bool
  | [], _ => true
  | Tok.lit _ :: _, [] => false
  | Tok.lit c :: ts, x :: xs => c == x && tokensMatchFront ts xs
  | Tok.anyStar :: ts, xs => (starTails xs).any fun t => tokensMatchFront ts t

/-- tokensMatchExact ts xs: the token sequence matches all of `xs`. -/
def tokensMatchExact : List Tok → List Char → Bool
  | [], [] => true
  | [], _ :: _ => false
  | Tok.lit _ :: _, [] => false
  | Tok.lit c :: ts, x :: xs => c == x && tokensMatchExact ts xs
  | Tok.anyStar :: ts, xs => (starTails xs).any fun t => tokensMatchExact ts t

/-- endsWithSlashStar ts: the compiled regexp text ends in `/.*`
(a bare `.*` arises only from a replaced `...`, and `/` is left
unescaped by QuoteMeta, so this is exactly `strings.HasSuffix(re,
slash-dot-star)` of the source). -/
def endsWithSlashStar (ts : List Tok) : Bool :=
  match ts.reverse with
  | Tok.anyStar :: Tok.lit c :: _ => c = '/'
  | _ => false

/-- matchPattern from update.go (src/unnamed/part_000): QuoteMeta the
pattern, replace `...` by `.*`, rewrite a trailing `/.*` to `(/.*)?`,
compile with a leading `^` and no trailing anchor, and run MatchString.
A left-anchored unanchored-right regexp matches the name exactly when
the tokens match some prefix of it; the optional group contributes the
disjunction below. -/
def matchPattern (pat name : String) : Bool :=
  if endsWithSlashStar (compilePat pat.data) then
    tokensMatchFront
        ((compilePat pat.data).take ((compilePat pat.data).length - 2)) name.data
      || tokensMatchFront
          ((compilePat pat.data).take ((compilePat pat.data).length - 2)
            ++ [Tok.lit '/', Tok.anyStar]) name.data
  else
    tokensMatchFront (compilePat pat.data) name.data

theorem self_mem_starTails (xs : List Char) : xs ∈ starTails xs := by
  cases xs <;> simp [starTails]

theorem append_mem_starTails {t : List Char} (ys : List Char) :
    ∀ {xs : List Char}, t ∈ starTails xs → t ++ ys ∈ starTails (xs ++ ys)
  | [], h => by
    simp [starTails] at h
    subst h
    simpa using self_mem_starTails ys
  | x :: xs, h => by
    rw [starTails] at h
    rcases List.mem_cons.mp h with h | h
    · subst h
      simp [starTails]
    · by_cases hx : x = '\n'
      · simp [hx] at h
      · rw [List.cons_append, starTails]
        exact List.mem_cons_of_mem _ (by
          rw [if_neg hx]
          exact append_mem_starTails ys (by simpa [hx] using h))

theorem tokensMatchFront_nil_tokens (xs : List Char) :
    tokensMatchFront [] xs = true := by
  cases xs <;> rfl

theorem prefix_of_exact_append {us : List Tok} {ys : List Char}
    (hus : tokensMatchFront us ys = true) :
    ∀ ts xs, tokensMatchExact ts xs = true →
      tokensMatchFront (ts ++ us) (xs ++ ys) = true
  | [], xs, h => by
    cases xs with
    | nil => simpa using hus
    | cons x xs => simp [tokensMatchExact] at h
  | Tok.lit c :: ts, xs, h => by
    cases xs with
    | nil => simp [tokensMatchExact] at h
    | cons x xs =>
      rw [tokensMatchExact, Bool.and_eq_true] at h
      rw [List.cons_append, List.cons_append, tokensMatchFront, Bool.and_eq_true]
      exact ⟨h.1, prefix_of_exact_append hus ts xs h.2⟩
  | Tok.anyStar :: ts, xs, h => by
    rw [tokensMatchExact, List.any_eq_true] at h
    rcases h with ⟨t, ht, hexact⟩
    rw [List.cons_append, tokensMatchFront, List.any_eq_true]
    exact ⟨t ++ ys, append_mem_starTails ys ht,
      prefix_of_exact_append hus ts t hexact⟩

theorem tokensMatchExact_self : ∀ l : List Char,
    tokensMatchExact (compilePat l) l = true
  | [] => rfl
  | [c] => by simp [compilePat, tokensMatchExact]
  | [c1, c2] => by simp [compilePat, tokensMatchExact]
  | c1 :: c2 :: c3 :: rest => by
    rw [compilePat]
    by_cases hdots : c1 = '.' ∧ c2 = '.' ∧ c3 = '.'
    · rw [if_pos hdots]
      obtain ⟨h1, h2, h3⟩ := hdots
      subst h1; subst h2; subst h3
      rw [tokensMatchExact, List.any_eq_true]
      refine ⟨rest, ?_, tokensMatchExact_self rest⟩
      rw [starTails, if_neg (by decide)]
      refine List.mem_cons_of_mem _ ?_
      rw [starTails, if_neg (by decide)]
      refine List.mem_cons_of_mem _ ?_
      rw [starTails, if_neg (by decide)]
      exact List.mem_cons_of_mem _ (self_mem_starTails rest)
    · rw [if_neg hdots, tokensMatchExact, Bool.and_eq_true]
      exact ⟨by simp, tokensMatchExact_self (c2 :: c3 :: rest)⟩

theorem exact_prefix_weaken {ts : List Tok} {xs : List Char}
    (h : tokensMatchExact ts xs = true) (ys : List Char) :
    tokensMatchFront ts (xs ++ ys) = true := by
  have := @prefix_of_exact_append [] ys
    (tokensMatchFront_nil_tokens ys) ts xs h
  simpa using this

theorem compilePat_append_slashdots : ∀ l : List Char,
    compilePat (l ++ ['/', '.', '.', '.']) = compilePat l ++ [Tok.lit '/', Tok.anyStar]
  | [] => by decide
  | [c] => by
    show compilePat (c :: '/' :: '.' :: '.' :: '.' :: []) = _
    simp [compilePat]
  | [c1, c2] => by
    show compilePat (c1 :: c2 :: '/' :: '.' :: '.' :: '.' :: []) = _
    simp [compilePat]
  | c1 :: c2 :: c3 :: rest => by
    show compilePat (c1 :: c2 :: c3 :: (rest ++ ['/', '.', '.', '.'])) = _
    rw [compilePat, compilePat]
    by_cases hdots : c1 = '.' ∧ c2 = '.' ∧ c3 = '.'
    · rw [if_pos hdots, if_pos hdots, compilePat_append_slashdots rest]
      rfl
    · rw [if_neg hdots, if_neg hdots,
        show c2 :: c3 :: (rest ++ ['/', '.', '.', '.'])
          = (c2 :: c3 :: rest) ++ ['/', '.', '.', '.'] from rfl,
        compilePat_append_slashdots (c2 :: c3 :: rest)]
      rfl

theorem compilePat_no_dots : ∀ l : List Char,
    ¬ (['.', '.', '.'] <:+: l) → compilePat l = l.map Tok.lit
  | [], _ => rfl
  | [c], _ => rfl
  | [c1, c2], _ => rfl
  | c1 :: c2 :: c3 :: rest, h => by
    rw [compilePat, if_neg, List.map]
    · have htail : ¬ (['.', '.', '.'] <:+: c2 :: c3 :: rest) := by
        intro hinf
        rcases hinf with ⟨s, t, hst⟩
        exact h ⟨c1 :: s, t, by rw [← hst]; rfl⟩
      rw [compilePat_no_dots (c2 :: c3 :: rest) htail]
    · rintro ⟨h1, h2, h3⟩
      subst h1; subst h2; subst h3
      exact h (List.IsPrefix.isInfix ⟨rest, rfl⟩)

theorem tokensMatchFront_map_lit : ∀ (l xs : List Char),
    tokensMatchFront (l.map Tok.lit) xs = true ↔ l <+: xs
  | [], xs => by simp [tokensMatchFront_nil_tokens]
  | c :: l, [] => by simp [tokensMatchFront]
  | c :: l, x :: xs => by
    rw [List.map, tokensMatchFront, Bool.and_eq_true, List.cons_prefix_cons,
      tokensMatchFront_map_lit l xs]
    simp

theorem endsWithSlashStar_map_lit (l : List Char) :
    endsWithSlashStar (l.map Tok.lit) = false := by
  unfold endsWithSlashStar
  rw [← List.map_reverse]
  cases l.reverse with
  | nil => rfl
  | cons x xs => rfl

theorem tokensMatchFront_single_star (w : List Char) :
    tokensMatchFront [Tok.anyStar] w = true := by
  cases w <;> simp [tokensMatchFront, starTails, tokensMatchFront_nil_tokens]

/-- C3 (amended): matchPattern is anchored at the start but not at the
end: for a wildcard-free pattern it tests exactly whether the pattern
is a string prefix of the path, so match("D", "DX") is true, while
match("D/...", "X/D") is still false because a match may not begin in
the middle of the path. -/
theorem C3_matchPattern_start_anchored :
    (∀ pat name : String, ¬ (['.', '.', '.'] <:+: pat.data) →
      (matchPattern pat name = true ↔ pat.data <+: name.data))
    ∧ matchPattern "D" "DX" = true
    ∧ matchPattern "D/..." "X/D" = false := by
  refine ⟨?_, by decide, by decide⟩
  intro pat name h
  rw [matchPattern.eq_def, compilePat_no_dots pat.data h, endsWithSlashStar_map_lit]
  simp only [Bool.false_eq_true, if_false]
  exact tokensMatchFront_map_lit pat.data name.data

/-- C3 counterexample to the claim as stated: the compiled regexp has
no right anchor, so the pattern "D" matches the path "DX". -/
theorem C3_counterexample : matchPattern "D" "DX" = true := by decide

/-- C3 witness: the start-anchor characterization applied at the
wildcard-free pattern "D" and name "X/D". -/
theorem C3_witness :
    matchPattern "D" "X/D" = true ↔ "D".data <+: "X/D".data :=
  C3_matchPattern_start_anchored.1 "D" "X/D" (by decide)

/-- C4: a pattern ending in the wildcard suffix also matches the prefix
itself: for every P, "P/..." matches the path P and every path
P/<suffix>; in particular match("D/...", "D") and match("D/...", "D/A")
are true. -/
theorem C4_wildcard_matches_prefix_itself :
    (∀ P s : String, matchPattern (P ++ "/...") P = true
      ∧ matchPattern (P ++ "/...") (P ++ "/" ++ s) = true)
    ∧ matchPattern "D/..." "D" = true
    ∧ matchPattern "D/..." "D/A" = true := by
  refine ⟨?_, by decide, by decide⟩
  intro P s
  have hdata : (P ++ "/...").data = P.data ++ ['/', '.', '.', '.'] := by
    rw [String.data_append]
  have hcomp : compilePat (P ++ "/...").data
      = compilePat P.data ++ [Tok.lit '/', Tok.anyStar] := by
    rw [hdata, compilePat_append_slashdots]
  have hends : endsWithSlashStar (compilePat (P ++ "/...").data) = true := by
    rw [hcomp]
    unfold endsWithSlashStar
    rw [List.reverse_append]
    rfl
  have htake : (compilePat (P ++ "/...").data).take
      ((compilePat (P ++ "/...").data).length - 2) = compilePat P.data := by
    rw [hcomp]
    rw [show (compilePat P.data ++ [Tok.lit '/', Tok.anyStar]).length - 2
      = (compilePat P.data).length from by simp]
    exact List.take_left _ _
  have hpre : tokensMatchFront (compilePat P.data) P.data = true := by
    have := exact_prefix_weaken (tokensMatchExact_self P.data) []
    simpa using this
  constructor
  · rw [matchPattern.eq_def, hends]
    simp only [if_true, htake, hpre, Bool.true_or]
  · rw [matchPattern.eq_def, hends]
    simp only [if_true, htake]
    have hright : tokensMatchFront
        (compilePat P.data ++ [Tok.lit '/', Tok.anyStar])
        (P.data ++ '/' :: s.data) = true := by
      refine prefix_of_exact_append ?_ _ _ (tokensMatchExact_self P.data)
      rw [tokensMatchFront, Bool.and_eq_true]
      exact ⟨by simp, tokensMatchFront_single_star s.data⟩
    have hname : (P ++ "/" ++ s).data = P.data ++ '/' :: s.data := by
      rw [String.data_append, String.data_append, List.append_assoc]
      rfl
    rw [hname, hright, Bool.or_true]

/-- RE2 whitespace class: space, tab, newline, form feed, carriage
return. -/
def isGoSpace (c : Char) : Bool :=
  c = ' ' || c = '\t' || c = '\n' || c = '\x0c' || c = '\r'

/-- RE2 word class: ASCII letters, digits and underscore. -/
def isGoWord (c : Char) : Bool :=
  c.isAlphanum || c = '_'

/-- dropLit lit l consumes the literal `lit` from the front of `l`. -/
def dropLit : List Char → List Char → Option (List Char)
  | [], input => some input
  | _ :: _, [] => none
  | c :: cs, x :: xs => if c = x then dropLit cs xs else none

/-- parseQuoted consumes a double-quoted or backquoted import path:
the regexp alternates a double-quoted body of non-quote characters
with a backquoted body of non-backquote characters. -/
def backquote : Char := Char.ofNat 96

def parseQuoted : List Char → Option (List Char)
  | c :: rest =>
    if c = '"' ∨ c = backquote then
      match rest.dropWhile fun x => x ≠ c with
      | _ :: r => some r
      | [] => none
    else none
  | [] => none

/-- parseImportClause consumes the regexp fragment
whitespace*, the literal word, whitespace+, then a quoted path (the
common interior of both comment alternatives of the annotation
regexp fragment in save.go). -/
def parseImportClause (l : List Char) : Option (List Char) :=
  match dropLit "import".data (l.dropWhile isGoSpace) with
  | none => none
  | some r7 =>
    if (r7.takeWhile isGoSpace).isEmpty then none
    else parseQuoted (r7.dropWhile isGoSpace)

/-- parseCommentRest consumes the importComment alternation of
save.go: a line comment holding only the annotation up to the end of
the line, or a block comment holding only the annotation; returns what
follows the comment. -/
def parseCommentRest : List Char → Option (List Char)
  | '/' :: '/' :: r5 =>
    match parseImportClause r5 with
    | some r9 => if r9.all isGoSpace then some [] else none
    | none => none
  | '/' :: '*' :: r5 =>
    match parseImportClause r5 with
    | some r9 => dropLit "*/".data (r9.dropWhile isGoSpace)
    | none => none
  | _ => none

/-- stripMatch is importCommentRE.FindSubmatch on one line: optional
whitespace, the captured package clause (keyword, whitespace, package
name), whitespace, the annotation comment, then the captured remainder
of the line; on success the source returns capture 1 concatenated with
capture 2.  The regexp classes are disjoint at every boundary, so the
greedy RE2 match is this deterministic scan. -/
def stripMatch (l : List Char) : Option (List Char) :=
  match dropLit "package".data (l.dropWhile isGoSpace) with
  | none => none
  | some r1 =>
    let ws1 := r1.takeWhile isGoSpace
    let r2 := r1.dropWhile isGoSpace
    if ws1.isEmpty then none
    else
      let w := r2.takeWhile isGoWord
      let r3 := r2.dropWhile isGoWord
      if w.isEmpty then none
      else
        if (r3.takeWhile isGoSpace).isEmpty then none
        else
          match parseCommentRest (r3.dropWhile isGoSpace) with
          | some rest =>
            some ("package".data ++ ws1 ++ w ++ rest.takeWhile (fun c => c ≠ '\n'))
          | none => none

/-- stripImportComment from save.go: lines without the exact prefix
`package ` take the fast path and are returned unaltered; otherwise
the annotation comment is stripped when the regexp matches. -/
def stripImportComment (line : String) : String :=
  if "package ".data.isPrefixOf line.data then
    match stripMatch line.data with
    | some out => String.mk out
    | none => line
  else line

/-- C5: the import-annotation strip maps the two annotated package
declarations to their stripped forms, leaves a line-comment annotation
followed by trailing garbage untouched, and returns every line that
does not begin with the package-declaration prefix unaltered. -/
theorem C5_stripImportComment :
    stripImportComment "package foo // import \"bar/foo\"" = "package foo"
    ∧ stripImportComment "package foo /* import \"bar/foo\" */; var x int"
        = "package foo; var x int"
    ∧ stripImportComment "package foo // import \"bar/foo\" garbage"
        = "package foo // import \"bar/foo\" garbage"
    ∧ ∀ line : String, "package ".data.isPrefixOf line.data = false →
        stripImportComment line = line := by
  refine ⟨by decide, by decide, by decide, ?_⟩
  intro line h
  rw [stripImportComment.eq_def, h]
  simp

/-- C5 witness: a line that is not a package declaration is returned
unaltered. -/
theorem C5_witness : stripImportComment "var x int" = "var x int" :=
  C5_stripImportComment.2.2.2 "var x int" (by decide)

/-- Manifest from the main package: the persisted reconciliation state
(Deps.json).  `Packages` carries the arguments to save and is omitted
from the JSON when empty. -/
structure Manifest where
  ImportPath : String
  GoVersion : String
  Packages : List String
  Deps : List Dependency
deriving Repr, DecidableEq

def hexDigit (n : Nat) : Char :=
  if n < 10 then Char.ofNat ('0'.toNat + n) else Char.ofNat ('a'.toNat + n - 10)

/-- jsonEscapeChar reproduces encoding/json's default string escaping:
quote, backslash, the three named control escapes, `\u00xx` for other
control characters, HTML-safe escapes for angle brackets and ampersand,
and the two Unicode line separators. -/
def jsonEscapeChar (c : Char) : List Char :=
  if c = '"' then ['\\', '"']
  else if c = '\\' then ['\\', '\\']
  else if c = '\n' then ['\\', 'n']
  else if c = '\r' then ['\\', 'r']
  else if c = '\t' then ['\\', 't']
  else if c = '<' then "\\u003c".data
  else if c = '>' then "\\u003e".data
  else if c = '&' then "\\u0026".data
  else if c.toNat < 0x20 then
    '\\' :: 'u' :: '0' :: '0' :: [hexDigit (c.toNat / 16), hexDigit (c.toNat % 16)]
  else if c.toNat = 0x2028 then "\\u2028".data
  else if c.toNat = 0x2029 then "\\u2029".data
  else [c]

def jsonQuote (s : String) : String :=
  String.mk ('"' :: s.data.flatMap jsonEscapeChar ++ ['"'])

/-- depJson renders one Dependency as `encoding/json.MarshalIndent`
does at nesting depth two (inside the Deps array): the exported fields
in declaration order, `Comment` omitted when empty, the dash-tagged
fields never emitted. -/
def depJson (d : Dependency) : String :=
  "\x7b\n\t\t\t\"ImportPath\": " ++ jsonQuote d.ImportPath
    ++ (if d.Comment = "" then ""
        else ",\n\t\t\t\"Comment\": " ++ jsonQuote d.Comment)
    ++ ",\n\t\t\t\"Rev\": " ++ jsonQuote d.Rev
    ++ "\n\t\t\x7d"

def depsJson : List Dependency → String
  | [] => "[]"
  | d :: ds =>
    "[\n\t\t" ++ String.intercalate ",\n\t\t" ((d :: ds).map depJson) ++ "\n\t]"

def packagesJson : List String → String
  | [] => "[]"
  | p :: ps =>
    "[\n\t\t" ++ String.intercalate ",\n\t\t" ((p :: ps).map jsonQuote) ++ "\n\t]"

/-- manifestJson renders a Manifest as `json.MarshalIndent(g, "",
tab)` does: fields in declaration order, `Packages` omitted when
empty. -/
def manifestJson (m : Manifest) : String :=
  "\x7b\n\t\"ImportPath\": " ++ jsonQuote m.ImportPath
    ++ ",\n\t\"GoVersion\": " ++ jsonQuote m.GoVersion
    ++ (if m.Packages.isEmpty then ""
        else ",\n\t\"Packages\": " ++ packagesJson m.Packages)
    ++ ",\n\t\"Deps\": " ++ depsJson m.Deps
    ++ "\n\x7d"

/-- depLE is the comparison of the `Deps` sort.Interface in the main
package: Less compares import paths. -/
def depLE (a b : Dependency) : Prop := a.ImportPath ≤ b.ImportPath

instance : DecidableRel depLE := fun a b =>
  inferInstanceAs (Decidable (a.ImportPath ≤ b.ImportPath))

instance : IsTotal Dependency depLE := ⟨fun a b => le_total a.ImportPath b.ImportPath⟩

instance : IsTrans Dependency depLE := ⟨fun _ _ _ h1 h2 => le_trans h1 h2⟩

/-- sortDeps models `sort.Sort(Deps(g.Deps))`: a comparison sort by
the import path (any comparison sort yields a sorted permutation; the
particular algorithm is observationally irrelevant up to ties). -/
def sortDeps (ds : List Dependency) : List Dependency :=
  List.insertionSort depLE ds

/-- writeTo is Manifest.WriteTo from the main package: sort the deps
in place, MarshalIndent with a tab, and append a final newline. -/
def writeTo (m : Manifest) : String :=
  manifestJson (Manifest.mk m.ImportPath m.GoVersion m.Packages (sortDeps m.Deps)) ++ "\n"

/-- C9: the serialized manifest writes the Deps sorted by ImportPath
(a sorted permutation of the in-memory list, and, for duplicate-free
paths, the same bytes for any insertion order), is indented
(the document opens with an opening brace, a newline and a
tab-indented first field), and ends with a trailing newline. -/
theorem C9_writeTo_sorted_indented_newline (m : Manifest) :
    ("\x7b\n\t\"ImportPath\": ".data <+: (writeTo m).data)
    ∧ ("\n".data <:+ (writeTo m).data)
    ∧ (sortDeps m.Deps).Perm m.Deps
    ∧ List.Sorted depLE (sortDeps m.Deps)
    ∧ writeTo m
        = manifestJson (Manifest.mk m.ImportPath m.GoVersion m.Packages (sortDeps m.Deps))
            ++ "\n"
    ∧ ∀ ds' : List Dependency, ds'.Perm m.Deps →
        m.Deps.Pairwise (fun a b => a.ImportPath ≠ b.ImportPath) →
        writeTo (Manifest.mk m.ImportPath m.GoVersion m.Packages ds') = writeTo m := by
  refine ⟨?_, ?_, List.perm_insertionSort depLE m.Deps,
    List.sorted_insertionSort depLE m.Deps, rfl, ?_⟩
  · rw [writeTo, manifestJson]
    simp only [String.data_append, List.append_assoc]
    exact List.prefix_append _ _
  · rw [writeTo, String.data_append]
    exact List.suffix_append _ _
  · intro ds' hperm hdist
    have hsymm : ∀ {x y : Dependency},
        x.ImportPath ≠ y.ImportPath → y.ImportPath ≠ x.ImportPath :=
      fun h => Ne.symm h
    have hdist' : ds'.Pairwise fun a b => a.ImportPath ≠ b.ImportPath :=
      (hperm.pairwise_iff hsymm).mpr hdist
    have hlt : ∀ l : List Dependency,
        List.Sorted depLE l → l.Pairwise (fun a b => a.ImportPath ≠ b.ImportPath) →
        l.Pairwise fun a b => a.ImportPath < b.ImportPath := by
      intro l hs hd
      exact (hs.and hd).imp fun h => lt_of_le_of_ne h.1 h.2
    have hperm1 : (sortDeps ds').Perm (sortDeps m.Deps) :=
      ((List.perm_insertionSort depLE ds').trans hperm).trans
        (List.perm_insertionSort depLE m.Deps).symm
    have heq : sortDeps ds' = sortDeps m.Deps := by
      refine @List.eq_of_perm_of_sorted Dependency
        (fun a b => a.ImportPath < b.ImportPath)
        ⟨fun a b h1 h2 => absurd (h1.trans h2) (lt_irrefl _)⟩ _ _ hperm1 ?_ ?_
      · exact hlt _ (List.sorted_insertionSort depLE ds')
          (((List.perm_insertionSort depLE ds').pairwise_iff hsymm).mpr hdist')
      · exact hlt _ (List.sorted_insertionSort depLE m.Deps)
          (((List.perm_insertionSort depLE m.Deps).pairwise_iff hsymm).mpr hdist)
    rw [writeTo, writeTo, heq]

/-- C9 witness: two insertion orders of the same duplicate-free
dependency set serialize to identical bytes. -/
theorem C9_witness :
    writeTo (Manifest.mk "C" "go1.1" []
        [⟨"E", "", "E1", "", "", ""⟩, ⟨"D", "", "D1", "", "", ""⟩])
      = writeTo (Manifest.mk "C" "go1.1" []
        [⟨"D", "", "D1", "", "", ""⟩, ⟨"E", "", "E1", "", "", ""⟩]) :=
  (C9_writeTo_sorted_indented_newline
      (Manifest.mk "C" "go1.1" []
        [⟨"D", "", "D1", "", "", ""⟩, ⟨"E", "", "E1", "", "", ""⟩])).2.2.2.2.2
    [⟨"E", "", "E1", "", "", ""⟩, ⟨"D", "", "D1", "", "", ""⟩]
    (by decide) (by decide)

/-- firstSegment models `strings.Split(arg, "/")[0]`: the run of
characters before the first slash. -/
def firstSegment (s : String) : String :=
  String.mk (s.data.takeWhile fun c => c ≠ '/')

/-- filter from update.go (src/unnamed/part_000): each argument is
first truncated to its top-level segment, then every dependency with
an import path matching it is appended; an argument that matches nothing
is only logged, which does not affect the returned list. -/
def filter : List String → List Dependency → List Dependency
  | [], _ => []
  | arg :: rest, deps =>
    (deps.filter fun dep => matchPattern (firstSegment arg) dep.ImportPath)
      ++ filter rest deps

/-- Pack is the part of `go list -json` output that LoadVCSAndUpdate
reads: directory, workspace root, import path and the flattened
per-package error string. -/
structure Pack where
  Dir : String
  Root : String
  ImportPath : String
  ErrorErr : String
deriving Repr, DecidableEq

/-- Env bundles the external collaborators of save/update as oracles:
the JSON decoder for the manifest file, the `go list` runner, VCS
detection (directory and source root to repository root), the three
per-backend operations keyed by directory, and the per-dependency
outcome of the file copier. -/
structure Env where
  decode : String → Except String Manifest
  loadPacksRaw : List String → Except String (List Pack)
  fromDir : String → String → Except String String
  identify : String → Except String String
  isDirty : String → String → Bool
  describe : String → String → String
  copyDepOk : Dependency → Bool

/-- loadPacks from pkgs/pkg.go: an empty argument list yields an empty
result without invoking the external lister. -/
def loadPacks (env : Env) (paths : List String) : Except String (List Pack) :=
  if paths.isEmpty then Except.ok [] else env.loadPacksRaw paths

/-- resolveCandidates is the first loop of LoadVCSAndUpdate
(src/unnamed/part_002): look each dependency's package up in the
lister output, flag an error when it is missing or carries a package
error or VCS detection fails, and otherwise bind the resolution-only
fields; flagged dependencies are skipped, the rest become candidates
in order.  Returns the candidates and the error flag err1. -/
def resolveCandidates (env : Env) (ps : List Pack) :
    List Dependency → List Dependency × Bool
  | [] => ([], false)
  | dep :: rest =>
    match ps.find? fun pkg => dep.ImportPath == pkg.ImportPath with
    | none => ((resolveCandidates env ps rest).1, true)
    | some pkg =>
      if pkg.ErrorErr ≠ "" then ((resolveCandidates env ps rest).1, true)
      else
        match env.fromDir pkg.Dir (pkg.Root ++ "/src") with
        | Except.error _ => ((resolveCandidates env ps rest).1, true)
        | Except.ok reporoot =>
          let r := resolveCandidates env ps rest
          (Dependency.mk dep.ImportPath dep.Comment dep.Rev pkg.Root reporoot pkg.Dir
              :: r.1,
            r.2)

/-- updateCandidates is the second loop of LoadVCSAndUpdate: identify
each candidate's current revision (an identify failure flags the error
and continues), abort the loop on a dirty working tree (`break` with
err1 set), and otherwise record the new revision and description.
The `noupdate` map of the source is allocated but never written, so
its skip branch is unreachable and not modelled. -/
def updateCandidates (env : Env) : List Dependency → List Dependency × Bool
  | [] => ([], false)
  | dep :: rest =>
    match env.identify dep.Dir with
    | Except.error _ => ((updateCandidates env rest).1, true)
    | Except.ok id =>
      if env.isDirty dep.Dir id then ([], true)
      else
        let r := updateCandidates env rest
        (Dependency.mk dep.ImportPath (env.describe dep.Dir id) id
            dep.Workspace dep.Root dep.Dir :: r.1,
          r.2)

/-- LoadVCSAndUpdate from pkgs (src/unnamed/part_002): list the
packages of the given dependencies, run the two loops, and fail with
the aggregate error whenever either loop raised its flag. -/
def LoadVCSAndUpdate (env : Env) (deps : List Dependency) :
    Except String (List Dependency) :=
  match loadPacks env (deps.map fun d => d.ImportPath) with
  | Except.error e => Except.error e
  | Except.ok ps =>
    let r1 := resolveCandidates env ps deps
    if r1.2 then Except.error "error loading dependencies"
    else
      let r2 := updateCandidates env r1.1
      if r2.2 then Except.error "error loading dependencies"
      else Except.ok r2.1

/-- copySrc outcome (save.go): per-file failures are logged and
aggregated into one error; modelled per dependency by the environment
oracle. -/
def copySrc (env : Env) (deps : List Dependency) : Except String Unit :=
  if deps.all env.copyDepOk then Except.ok ()
  else Except.error "error copying source code"

/-- ReadManifest from the main package (src/unnamed/part_002): opens
the manifest file and decodes it; a missing file is an open error,
which is returned. -/
def ReadManifest (env : Env) (file : Option String) : Except String Manifest :=
  match file with
  | none => Except.error "open vendor/Deps.json: no such file or directory"
  | some raw => env.decode raw

/-- readCurManifest from save.go: a missing manifest file yields the
zero-value manifest and no error; any other content is decoded. -/
def readCurManifest (env : Env) (file : Option String) : Except String Manifest :=
  match file with
  | none => Except.ok (Manifest.mk "" "" [] [])
  | some raw => env.decode raw

/-- update from src/unnamed/part_000: read the manifest through
ReadManifest (failing if it cannot be read), select the matching
dependencies, re-resolve them, fail when nothing could be updated,
then truncate and rewrite the manifest file and copy the sources.
The pair returned is the operation's result together with the manifest
file content after the operation. -/
def update (env : Env) (file : Option String) (args : List String) :
    Except String Unit × Option String :=
  match ReadManifest env file with
  | Except.error e => (Except.error e, file)
  | Except.ok g =>
    match LoadVCSAndUpdate env (filter args g.Deps) with
    | Except.error e => (Except.error e, file)
    | Except.ok deps =>
      if deps.isEmpty then (Except.error "no packages can be updated", file)
      else
        (copySrc env deps,
          some (writeTo (Manifest.mk g.ImportPath g.GoVersion g.Packages
            (subDeps g.Deps (filter args g.Deps) ++ deps))))

theorem updateCandidates_flag_of_dirty (env : Env) :
    ∀ (cs : List Dependency) (dep : Dependency) (id : String),
      dep ∈ cs → env.identify dep.Dir = Except.ok id →
      env.isDirty dep.Dir id = true →
      (updateCandidates env cs).2 = true
  | [], dep, id, hmem, _, _ => absurd hmem (List.not_mem_nil dep)
  | d :: rest, dep, id, hmem, hid, hdirty => by
    rw [updateCandidates]
    cases hident : env.identify d.Dir with
    | error e => simp
    | ok i =>
      simp only
      by_cases hd : env.isDirty d.Dir i = true
      · simp [hd]
      · rcases List.mem_cons.mp hmem with heq | hmem'
        · subst heq
          rw [hident] at hid
          injection hid with h
          subst h
          exact absurd hdirty hd
        · rw [Bool.not_eq_true] at hd
          simp only [hd, Bool.false_eq_true, if_false]
          exact updateCandidates_flag_of_dirty env rest dep id hmem' hid hdirty

/-- C6: when any to-be-updated dependency's working tree differs from
its identified revision, the update operation fails with the aggregate
resolution error before the manifest file is created, so the persisted
manifest content is exactly what it was before the operation. -/
theorem C6_dirty_tree_aborts_unchanged (env : Env) (raw : String) (g : Manifest)
    (args : List String) (ps : List Pack) (dep : Dependency) (id : String)
    (hdec : env.decode raw = Except.ok g)
    (hps : loadPacks env ((filter args g.Deps).map fun d => d.ImportPath)
      = Except.ok ps)
    (hdep : dep ∈ (resolveCandidates env ps (filter args g.Deps)).1)
    (hid : env.identify dep.Dir = Except.ok id)
    (hdirty : env.isDirty dep.Dir id = true) :
    update env (some raw) args
      = (Except.error "error loading dependencies", some raw) := by
  have hload : LoadVCSAndUpdate env (filter args g.Deps)
      = Except.error "error loading dependencies" := by
    rw [LoadVCSAndUpdate, hps]
    by_cases hflag : (resolveCandidates env ps (filter args g.Deps)).2 = true
    · simp [hflag]
    · rw [Bool.not_eq_true] at hflag
      have h2 := updateCandidates_flag_of_dirty env _ dep id hdep hid hdirty
      simp [hflag, h2]
  rw [update, ReadManifest, hdec]
  simp only [hload]

/-- C6 witness: a concrete environment in which the single selected
dependency D resolves but its working tree is dirty; update fails and
the manifest file content is unchanged. -/
theorem C6_witness :
    update
        (Env.mk (fun _ => Except.ok (Manifest.mk "C" "go1" []
            [Dependency.mk "D" "" "D1" "" "" ""]))
          (fun _ => Except.ok [Pack.mk "dirD" "ws" "D" ""])
          (fun _ _ => Except.ok "D") (fun _ => Except.ok "D2")
          (fun _ _ => true) (fun _ _ => "") (fun _ => true))
        (some "old manifest bytes") ["D"]
      = (Except.error "error loading dependencies", some "old manifest bytes") :=
  C6_dirty_tree_aborts_unchanged _ _
    (Manifest.mk "C" "go1" [] [Dependency.mk "D" "" "D1" "" "" ""]) _
    [Pack.mk "dirD" "ws" "D" ""]
    (Dependency.mk "D" "" "D1" "ws" "D" "dirD") "D2"
    rfl rfl (by decide) rfl rfl

/-- C7 (amended): save's readCurManifest maps an absent manifest file
to the empty manifest with no error, but update's ReadManifest
propagates the open error for an absent file, so update fails
immediately instead of proceeding, leaving the (absent) manifest
untouched. -/
theorem C7_absent_manifest_split (env : Env) (args : List String) :
    readCurManifest env none = Except.ok (Manifest.mk "" "" [] [])
    ∧ (ReadManifest env none).isOk = false
    ∧ update env none args
        = (Except.error "open vendor/Deps.json: no such file or directory", none) :=
  ⟨rfl, rfl, rfl⟩

/-- C7 counterexample to the claim as stated: with the manifest file
absent, update does not proceed on an empty manifest; it returns the
open error. -/
theorem C7_counterexample :
    (update
        (Env.mk (fun _ => Except.error "decoder unused")
          (fun _ => Except.ok []) (fun _ _ => Except.ok "")
          (fun _ => Except.ok "") (fun _ _ => false) (fun _ _ => "")
          (fun _ => true))
        none ["D"]).1
      = Except.error "open vendor/Deps.json: no such file or directory" := rfl

theorem resolveCandidates_length (env : Env) (ps : List Pack) :
    ∀ ds : List Dependency, (resolveCandidates env ps ds).2 = false →
      (resolveCandidates env ps ds).1.length = ds.length
  | [], _ => rfl
  | dep :: rest, h => by
    rw [resolveCandidates] at h ⊢
    cases hf : ps.find? fun pkg => dep.ImportPath == pkg.ImportPath with
    | none =>
      simp only [hf] at h
      exact Bool.noConfusion h
    | some pkg =>
      simp only [hf] at h ⊢
      by_cases he : pkg.ErrorErr ≠ ""
      · simp only [if_pos he] at h
        exact Bool.noConfusion h
      · simp only [if_neg he] at h ⊢
        cases hfd : env.fromDir pkg.Dir (pkg.Root ++ "/src") with
        | error e =>
          simp only [hfd] at h
          exact Bool.noConfusion h
        | ok root =>
          simp only [hfd] at h ⊢
          simp only [List.length_cons]
          rw [resolveCandidates_length env ps rest h]

theorem updateCandidates_length (env : Env) :
    ∀ ds : List Dependency, (updateCandidates env ds).2 = false →
      (updateCandidates env ds).1.length = ds.length
  | [], _ => rfl
  | dep :: rest, h => by
    rw [updateCandidates] at h ⊢
    cases hident : env.identify dep.Dir with
    | error e =>
      simp only [hident] at h
      exact Bool.noConfusion h
    | ok id =>
      simp only [hident] at h ⊢
      by_cases hd : env.isDirty dep.Dir id = true
      · simp only [if_pos hd] at h
        exact Bool.noConfusion h
      · simp only [if_neg hd] at h ⊢
        simp only [List.length_cons]
        rw [updateCandidates_length env rest h]

theorem LoadVCSAndUpdate_ok_length (env : Env) (ds deps : List Dependency)
    (h : LoadVCSAndUpdate env ds = Except.ok deps) : deps.length = ds.length := by
  rw [LoadVCSAndUpdate] at h
  cases hps : loadPacks env (ds.map fun d => d.ImportPath) with
  | error e => rw [hps] at h; exact absurd h (by simp)
  | ok ps =>
    rw [hps] at h
    by_cases h1 : (resolveCandidates env ps ds).2 = true
    · simp [h1] at h
    · rw [Bool.not_eq_true] at h1
      by_cases h2 : (updateCandidates env (resolveCandidates env ps ds).1).2 = true
      · simp [h1, h2] at h
      · rw [Bool.not_eq_true] at h2
        simp only [h1, h2, Bool.false_eq_true, if_false] at h
        injection h with h
        rw [← h, updateCandidates_length env _ h2,
          resolveCandidates_length env ps ds h1]

/-- C8: given that the manifest decodes and resolution of the selected
dependencies succeeds, update fails with the no-packages error exactly
when the supplied patterns selected nothing from the manifest; a
pattern that matches nothing while others match does not by itself
fail the operation. -/
theorem C8_error_iff_nothing_matched (env : Env) (raw : String) (g : Manifest)
    (args : List String) (deps : List Dependency)
    (hdec : env.decode raw = Except.ok g)
    (hload : LoadVCSAndUpdate env (filter args g.Deps) = Except.ok deps) :
    ((update env (some raw) args).1 = Except.error "no packages can be updated")
      ↔ filter args g.Deps = [] := by
  have hlen := LoadVCSAndUpdate_ok_length env _ deps hload
  rw [update, ReadManifest, hdec]
  simp only [hload]
  by_cases hempty : deps.isEmpty = true
  · simp only [if_pos hempty]
    constructor
    · intro _
      rw [List.isEmpty_iff_length_eq_zero] at hempty
      rw [hempty] at hlen
      exact List.length_eq_zero.mp hlen.symm
    · intro _
      trivial
  · simp only [if_neg hempty]
    constructor
    · intro hcopy
      rw [copySrc] at hcopy
      by_cases hall : deps.all env.copyDepOk = true
      · rw [if_pos hall] at hcopy
        exact absurd hcopy (by simp)
      · rw [if_neg hall] at hcopy
        injection hcopy with hmsg
        exact absurd hmsg (by decide)
    · intro hfilter
      exfalso
      rw [hfilter] at hlen
      simp only [List.length_nil] at hlen
      rw [List.isEmpty_iff_length_eq_zero] at hempty
      exact hempty hlen

/-- C8 witness: a single pattern selecting the only dependency, with a
successful resolution: no no-packages error is raised and indeed the
selection is nonempty. -/
theorem C8_witness :
    ((update
        (Env.mk (fun _ => Except.ok (Manifest.mk "C" "go1" []
            [Dependency.mk "D" "" "D1" "" "" ""]))
          (fun _ => Except.ok [Pack.mk "dirD" "ws" "D" ""])
          (fun _ _ => Except.ok "D") (fun _ => Except.ok "D2")
          (fun _ _ => false) (fun _ _ => "D2") (fun _ => true))
        (some "m") ["D"]).1
      = Except.error "no packages can be updated")
    ↔ filter ["D"] (Manifest.mk "C" "go1" []
        [Dependency.mk "D" "" "D1" "" "" ""]).Deps = [] :=
  C8_error_iff_nothing_matched _ "m"
    (Manifest.mk "C" "go1" [] [Dependency.mk "D" "" "D1" "" "" ""])
    ["D"] [Dependency.mk "D" "D2" "D2" "ws" "D" "dirD"] rfl rfl

theorem endsWithSlashStar_decomp (ts : List Tok) (h : endsWithSlashStar ts = true) :
    ts.take (ts.length - 2) ++ [Tok.lit '/', Tok.anyStar] = ts := by
  unfold endsWithSlashStar at h
  cases hrev : ts.reverse with
  | nil => rw [hrev] at h; exact Bool.noConfusion h
  | cons a w =>
    cases a with
    | lit c => rw [hrev] at h; exact Bool.noConfusion h
    | anyStar =>
      cases w with
      | nil => rw [hrev] at h; exact Bool.noConfusion h
      | cons b w2 =>
        cases b with
        | anyStar => rw [hrev] at h; exact Bool.noConfusion h
        | lit c =>
          rw [hrev] at h
          have hc : c = '/' := by
            have := of_decide_eq_true h
            exact this
          subst hc
          have hts : ts = w2.reverse ++ [Tok.lit '/', Tok.anyStar] := by
            have h2 := congrArg List.reverse hrev
            rw [List.reverse_reverse] at h2
            rw [h2]
            simp
          rw [hts]
          rw [show (w2.reverse ++ [Tok.lit '/', Tok.anyStar]).length - 2
            = w2.reverse.length from by simp]
          rw [List.take_left]

theorem matchPattern_self_subpath (top : String) :
    ∀ sub : String, matchPattern top (top ++ "/" ++ sub) = true := by
  intro sub
  have hname : (top ++ "/" ++ sub).data = top.data ++ '/' :: sub.data := by
    rw [String.data_append, String.data_append, List.append_assoc]
    rfl
  have hexact := tokensMatchExact_self top.data
  rw [matchPattern.eq_def]
  by_cases hend : endsWithSlashStar (compilePat top.data) = true
  · rw [if_pos hend, endsWithSlashStar_decomp _ hend, hname]
    rw [exact_prefix_weaken hexact ('/' :: sub.data), Bool.or_true]
  · rw [if_neg hend, hname]
    exact exact_prefix_weaken hexact ('/' :: sub.data)

theorem takeWhile_ne_slash_of_no_slash :
    ∀ l : List Char, ('/' : Char) ∉ l → (l.takeWhile fun c => c ≠ '/') = l
  | [], _ => rfl
  | c :: cs, h => by
    rw [List.takeWhile_cons]
    have hc : c ≠ '/' := fun hx => h (hx ▸ List.mem_cons_self c cs)
    rw [if_pos (by simpa using hc)]
    rw [takeWhile_ne_slash_of_no_slash cs fun hx => h (List.mem_cons_of_mem c hx)]

theorem firstSegment_append (top rest : String) (htop : ('/' : Char) ∉ top.data) :
    firstSegment (top ++ "/" ++ rest) = top := by
  rw [firstSegment]
  have hd : (top ++ "/" ++ rest).data = top.data ++ '/' :: rest.data := by
    rw [String.data_append, String.data_append, List.append_assoc]
    rfl
  rw [hd, List.takeWhile_append]
  rw [takeWhile_ne_slash_of_no_slash top.data htop]
  simp only [if_pos rfl]
  rw [show (('/' :: rest.data).takeWhile fun c => c ≠ '/') = [] from by
    rw [List.takeWhile_cons]
    simp]
  rw [List.append_nil]
  cases top with
  | mk d => rfl

/-- C10: the update selection truncates each supplied pattern to its
first path segment before matching, so a pattern naming a subpackage
selects every dependency whose import path matches the top-level
segment; a top segment matches every subpackage path under it, so all
packages of that repository are selected (and hence re-resolved)
together, as in the repository's own test with patterns D/A and
dependencies D/A, D/B. -/
theorem C10_filter_truncates_to_top_segment (top rest : String)
    (deps : List Dependency) (htop : ('/' : Char) ∉ top.data) :
    filter [top ++ "/" ++ rest] deps
      = (deps.filter fun dep => matchPattern top dep.ImportPath)
    ∧ (∀ sub : String, matchPattern top (top ++ "/" ++ sub) = true)
    ∧ filter ["D/A"]
        [⟨"D/A", "", "D1", "", "", ""⟩, ⟨"D/B", "", "D1", "", "", ""⟩,
          ⟨"E", "", "E1", "", "", ""⟩]
      = [⟨"D/A", "", "D1", "", "", ""⟩, ⟨"D/B", "", "D1", "", "", ""⟩] := by
  refine ⟨?_, matchPattern_self_subpath top, by decide⟩
  rw [filter, firstSegment_append top rest htop, filter, List.append_nil]

/-- C10 witness: the truncation and lockstep selection at the test's
own inputs: pattern D/A (truncated to D) selects both D/A and D/B but
not E. -/
theorem C10_witness :
    filter [("D" : String) ++ "/" ++ "A"]
        [⟨"D/A", "", "D1", "", "", ""⟩, ⟨"D/B", "", "D1", "", "", ""⟩,
          ⟨"E", "", "E1", "", "", ""⟩]
      = ([⟨"D/A", "", "D1", "", "", ""⟩, ⟨"D/B", "", "D1", "", "", ""⟩,
          ⟨"E", "", "E1", "", "", ""⟩].filter
            fun dep => matchPattern "D" dep.ImportPath) :=
  (C10_filter_truncates_to_top_segment "D" "A"
    [⟨"D/A", "", "D1", "", "", ""⟩, ⟨"D/B", "", "D1", "", "", ""⟩,
      ⟨"E", "", "E1", "", "", ""⟩] (by decide)).1

end Govend
